import Mathlib

/-!
Verification of the `rush` shell against its specification.

The definitions below are a shallow embedding of the Rust sources:

* `src/util.rs` — `RushError`, `TokenKind`, `Tokenizer::from` / `Tokenizer::tokenize`
  (the character-level quoting state machine);
* `src/command/mod.rs` — `CommandType`, `CommandType::from_str`, `Command`,
  `Command::new` and the `Display` instances;
* `src/command/path.rs` — `is_executable`, `is_builtin`, `find_in_path`;
* `src/command/handlers/echo.rs`, `type.rs`, `executable.rs` — the handlers.

Strings are modelled as `List Char` inside the tokenizer (Rust iterates
`chars()`), with the crucial exception that the source compares the *char
index* `i` against the *UTF-8 byte length* `self.input.len()`; we therefore
model the byte length explicitly via `charUtf8Size`.  OS collaborators
(environment variables, the file system, process spawning) are passed in
explicitly as data, and printing handlers return the list of lines they
print.
-/

namespace Rush

/-- Rust `char::len_utf8` (`core/src/char/methods.rs`): the number of UTF-8
bytes of a scalar value. -/
def charUtf8Size (c : Char) : Nat :=
  if c.toNat < 0x80 then 1
  else if c.toNat < 0x800 then 2
  else if c.toNat < 0x10000 then 3
  else 4

/-- Byte length of a string given as its character list — Rust `str::len`. -/
def utf8Len (cs : List Char) : Nat :=
  (cs.map charUtf8Size).sum

/-- Rust `char::is_whitespace`: the Unicode `White_Space` property
(the 25 code points with that property). -/
def isRustWhitespace (c : Char) : Bool :=
  c.toNat = 0x09 || c.toNat = 0x0A || c.toNat = 0x0B || c.toNat = 0x0C ||
  c.toNat = 0x0D || c.toNat = 0x20 || c.toNat = 0x85 || c.toNat = 0xA0 ||
  c.toNat = 0x1680 || (0x2000 ≤ c.toNat && c.toNat ≤ 0x200A) ||
  c.toNat = 0x2028 || c.toNat = 0x2029 || c.toNat = 0x202F ||
  c.toNat = 0x205F || c.toNat = 0x3000

/-- Rust `str::trim`: remove leading and trailing whitespace. -/
def rustTrim (cs : List Char) : List Char :=
  ((cs.dropWhile isRustWhitespace).reverse.dropWhile isRustWhitespace).reverse

/-- `CommandType` from `src/command/mod.rs`. -/
inductive CommandType where
  | Cd
  | Echo
  | Executable (path : String) (name : String)
  | Exit
  | Pwd
  | Type
  | Unknown (cmd : String)
deriving DecidableEq, Repr

/-- The `Display` instance for `CommandType` (`src/command/mod.rs`). -/
def CommandType.display : CommandType → String
  | .Cd => "cd"
  | .Echo => "echo"
  | .Executable _ name => name
  | .Exit => "exit"
  | .Pwd => "pwd"
  | .Type => "type"
  | .Unknown cmd => cmd

/-- `RushError` from `src/util.rs`. -/
inductive RushError where
  | CommandError (type_ : CommandType) (msg : String) (status : Option Int)
  | CommandNotFound (cmd : String)
  | Nop
  | UnexpectedEOF
  | UnterminatedQuote
deriving DecidableEq, Repr

/-- The `Display` instance for `RushError` derived by `thiserror` from the
`#[error(...)]` attributes in `src/util.rs`. -/
def RushError.render : RushError → String
  | .CommandError type_ msg _ => type_.display ++ ": " ++ msg
  | .CommandNotFound cmd => cmd ++ ": command not found"
  | .Nop => ""
  | .UnexpectedEOF => "error reading input: unexpected EOF"
  | .UnterminatedQuote => "error: unterminated quote"

/-- `TokenKind` from `src/util.rs`. -/
inductive TokenKind where
  | Literal (s : List Char)
  | Quoted (s : List Char)
  | Space
deriving DecidableEq, Repr

/-- The mutable state of `Tokenizer::tokenize`: the scratch buffer `buf`, the
quote counter, the `has_seen_literal` flag, and the token list built so far.
`tokens` is stored in reverse (head = most recently pushed token) so that the
the `last()`, `last_mut()` and `pop()` calls of the source act on the head. -/
structure TokState where
  buf : List Char
  quoteCount : Nat
  hasSeenLiteral : Bool
  tokens : List TokenKind
deriving DecidableEq, Repr

/-- The single-quote character, `0x27`. -/
def quoteChar : Char := Char.ofNat 39

/-- One iteration of the `for (i, char)` loop of `Tokenizer::tokenize`
(`src/util.rs` lines 58–156).  `L` is `self.input.len()` — the *byte* length
of the input, while `i` is the *char* index from `enumerate()`, exactly as in
the source. -/
def tokStep (L : Nat) (st : TokState) (i : Nat) (c : Char) : Except RushError TokState :=
  if c = quoteChar then
    let qc := st.quoteCount + 1
    if qc = 1 then
      -- flush pending literal content before entering the quote
      if (rustTrim st.buf).isEmpty then
        .ok { st with buf := [], quoteCount := qc }
      else
        .ok { st with buf := [], quoteCount := qc, hasSeenLiteral := true
                      tokens := .Literal (rustTrim st.buf) :: st.tokens }
    else if qc = 2 then
      -- ignore empty quoted tokens
      if (rustTrim st.buf).length = 0 then
        .ok { st with buf := [], quoteCount := 0 }
      else
        -- concatenate with the previous token unless a Space separates them
        match st.tokens with
        | .Quoted t :: rest =>
            .ok { st with buf := [], quoteCount := 0
                          tokens := .Quoted (t ++ st.buf) :: rest }
        | .Literal t :: rest =>
            .ok { st with buf := [], quoteCount := 0
                          tokens := .Quoted (t ++ st.buf) :: rest }
        | .Space :: rest =>
            -- pop the Space, then push the new quoted token
            .ok { st with buf := [], quoteCount := 0
                          tokens := .Quoted st.buf :: rest }
        | [] =>
            .ok { st with buf := [], quoteCount := 0
                          tokens := [.Quoted st.buf] }
    else
      -- unreachable in the source (quote_count is reset at 2)
      .ok { st with quoteCount := qc }
  else if c = ' ' then
    if st.quoteCount = 0 then
      if (rustTrim st.buf).isEmpty then
        -- skip empty tokens; push a Space separator after a Literal, or
        -- after a Quoted once a literal has been seen
        match st.tokens with
        | .Literal _ :: _ =>
            .ok { st with buf := [], tokens := .Space :: st.tokens }
        | .Quoted _ :: _ =>
            if st.hasSeenLiteral then
              .ok { st with buf := [], tokens := .Space :: st.tokens }
            else
              .ok { st with buf := [] }
        | _ => .ok { st with buf := [] }
      else
        .ok { st with buf := [], hasSeenLiteral := true
                      tokens := .Space :: .Literal (rustTrim st.buf) :: st.tokens }
    else
      .ok { st with buf := st.buf ++ [' '] }
  else
    -- at the end, an odd number of quotes means an unterminated quote
    if i = L - 1 ∧ st.quoteCount % 2 = 1 then
      .error .UnterminatedQuote
    else
      .ok { st with buf := st.buf ++ [c] }

/-- The `for` loop of `Tokenizer::tokenize`, threading the char index. -/
def tokLoop (L : Nat) (st : TokState) (i : Nat) : List Char → Except RushError TokState
  | [] => .ok st
  | c :: cs =>
    match tokStep L st i c with
    | .error e => .error e
    | .ok st2 => tokLoop L st2 (i + 1) cs

/-- The flush after the loop (`src/util.rs` lines 158–172): remaining buffer
content is appended to a trailing `Literal`/`Quoted` token, else pushed as a
new `Literal`. -/
def tokFinish (st : TokState) : List TokenKind :=
  if st.buf.length > 0 then
    match st.tokens with
    | .Literal t :: rest => .Literal (t ++ rustTrim st.buf) :: rest
    | .Quoted t :: rest => .Quoted (t ++ rustTrim st.buf) :: rest
    | toks => .Literal (rustTrim st.buf) :: toks
  else
    st.tokens

/-- The final collection loop (`src/util.rs` lines 174–182): `Space` tokens
are dropped, `Literal`/`Quoted` contents are returned in order.  The
argument is in reverse push order, hence the `reverse`. -/
def collectTokens (toks : List TokenKind) : List (List Char) :=
  toks.reverse.filterMap fun t =>
    match t with
    | .Literal s => some s
    | .Quoted s => some s
    | .Space => none

/-- `Tokenizer::tokenize` (`src/util.rs` lines 53–185), as a function of the
stored `input` field. -/
def tokenize (input : List Char) : Except RushError (List (List Char)) :=
  (tokLoop (utf8Len input) ⟨[], 0, false, []⟩ 0 input).map
    fun st => collectTokens (tokFinish st)

/-- `tokenize` on a `String`, with tokens returned as `String`s. -/
def tokenizeStr (s : String) : Except RushError (List String) :=
  (tokenize s.toList).map fun ts => ts.map List.asString

/-- The `crate::util::tokenize` entry point used by `Command::new`:
`Tokenizer::from(reader)` trims the line read (`input.trim().to_owned()`,
`src/util.rs` line 48) and `tokenize` is run on the trimmed line. -/
def tokenizeInput (line : String) : Except RushError (List String) :=
  (tokenize (rustTrim line.toList)).map fun ts => ts.map List.asString

/-- Rust `str::trim` on a `String`. -/
def strTrim (s : String) : String :=
  (rustTrim s.toList).asString

/-- `CommandType::from_str` (`src/command/mod.rs` lines 39–48). -/
def CommandType.fromStr (s : String) : CommandType :=
  let t := strTrim s
  if t = "cd" then .Cd
  else if t = "exit" then .Exit
  else if t = "echo" then .Echo
  else if t = "pwd" then .Pwd
  else if t = "type" then .Type
  else .Unknown t

/-- Result of `path.metadata()` for one path: the Unix permission mode. -/
structure FileMeta where
  mode : Nat
deriving DecidableEq, Repr

/-- The OS collaborators used by the Path-Resolver: the `PATH` environment
variable (`env::var_os("PATH")`), `Path::exists` and `Path::metadata`. -/
structure OsEnv where
  pathVar : Option String
  fileExists : String → Bool
  metadata : String → Option FileMeta

/-- `is_executable` (`src/command/path.rs` lines 6–11, the Unix variant):
`path.metadata().map(|m| m.permissions().mode() & 0o111 != 0).unwrap_or(false)`. -/
def is_executable (env : OsEnv) (path : String) : Bool :=
  match env.metadata path with
  | some m => m.mode &&& 0o111 != 0
  | none => false

/-- Split a character list at each colon; like Rust `str::split`, the
number of pieces is one more than the number of separators, so the empty
input gives one empty piece. -/
def splitPathsChars : List Char → List (List Char)
  | [] => [[]]
  | c :: cs =>
    match splitPathsChars cs with
    | [] => [[]]
    | piece :: pieces =>
      if c = ':' then [] :: piece :: pieces
      else (c :: piece) :: pieces

/-- `env::split_paths` on Unix: split the `PATH` value at each `:`. -/
def splitPaths (s : String) : List String :=
  (splitPathsChars s.toList).map List.asString

/-- `Path::new(&dir).join(cmd_name)` on Unix: an absolute `cmd_name` (one
that starts with `/`) replaces `dir`; otherwise a `/` separator is inserted
unless `dir` is empty or already ends with one. -/
def pathJoin (dir name : String) : String :=
  if name.toList.head? = some '/' then name
  else if dir.toList = [] || dir.toList.getLast? = some '/' then dir ++ name
  else dir ++ "/" ++ name

/-- The directory scan inside `find_in_path`
(`src/command/path.rs` lines 35–42). -/
def findDir (env : OsEnv) (cmdName : String) : List String → Option String
  | [] => none
  | dir :: dirs =>
    let fullPath := pathJoin dir cmdName
    if env.fileExists fullPath && is_executable env fullPath then some fullPath
    else findDir env cmdName dirs

/-- `find_in_path` (`src/command/path.rs` lines 29–45). -/
def find_in_path (env : OsEnv) (cmdName : String) : Except RushError (Option String) :=
  match env.pathVar with
  | none => .ok none
  | some pathEnv => .ok (findDir env cmdName (splitPaths pathEnv))

/-- `is_builtin` (`src/command/path.rs` lines 18–27). -/
def is_builtin (cmdName : String) : Bool :=
  match CommandType.fromStr cmdName with
  | .Cd => true
  | .Echo => true
  | .Exit => true
  | .Pwd => true
  | .Type => true
  | _ => false

/-- `Command` (`src/command/mod.rs` lines 51–55). -/
structure Command where
  type_ : CommandType
  args : List String
deriving DecidableEq, Repr

/-- `Command::new` (`src/command/mod.rs` lines 58–77), with the input line
already read from the reader. -/
def Command.new (env : OsEnv) (line : String) : Except RushError Command :=
  match tokenizeInput line with
  | .error e => .error e
  | .ok args =>
    match args.head? with
    | none => .error .Nop
    | some name =>
      match CommandType.fromStr name with
      | .Unknown cmd =>
        match find_in_path env cmd with
        | .error e => .error e
        | .ok (some path) => .ok { type_ := .Executable path cmd, args := args }
        | .ok none => .error (.CommandNotFound cmd)
      | t => .ok { type_ := t, args := args }

/-- Is the command kind the terminal `Unknown` classification? -/
def CommandType.isUnknown : CommandType → Bool
  | .Unknown _ => true
  | _ => false

/-- `handle_echo` (`src/command/handlers/echo.rs` lines 3–13).  The returned
list holds the lines printed to standard output. -/
def handle_echo (args : List String) : Except RushError (List String) :=
  let tokens := args.drop 1
  if tokens.isEmpty then .ok []
  else .ok [String.intercalate " " tokens]

/-- `handle_type` (`src/command/handlers/type.rs` lines 6–31).  The returned
list holds the lines printed to standard output. -/
def handle_type (env : OsEnv) (args : List String) : Except RushError (List String) :=
  match args.get? 1 with
  | none => .error (.CommandError .Type "missing argument" (some 1))
  | some cmdName =>
    if is_builtin cmdName then .ok [cmdName ++ " is a shell builtin"]
    else
      match find_in_path env cmdName with
      | .error e => .error e
      | .ok (some path) => .ok [cmdName ++ " is " ++ path]
      | .ok none => .error (.CommandError (.Unknown cmdName) "not found" (some 1))

/-- A Rust `io::Error`: its display text and `raw_os_error()`. -/
structure IoError where
  msg : String
  rawOsError : Option Int
deriving DecidableEq, Repr

/-- A child process termination status (`std::process::ExitStatus`): normal
exit with a code, or death by signal (no code). -/
inductive ExitStatus where
  | exited (code : Int)
  | signaled
deriving DecidableEq, Repr

/-- `ExitStatus::success`. -/
def ExitStatus.success : ExitStatus → Bool
  | .exited code => code == 0
  | .signaled => false

/-- `ExitStatus::code`. -/
def ExitStatus.code : ExitStatus → Option Int
  | .exited code => some code
  | .signaled => none

/-- The observable behaviour of one spawned child: the result of
`child.wait()` and of the two `io::copy` relay threads. -/
structure ChildRun where
  wait : Except IoError ExitStatus
  stdoutRelay : Except IoError Unit
  stderrRelay : Except IoError Unit

/-- `handle_executable` (`src/command/handlers/executable.rs` lines 5–62).
`spawn` is the OS collaborator behind `process::Command::new(name)
.args(&args[1..]).stdout(piped).stderr(piped).spawn()`: it receives the
program string and the argument list passed by the handler and either fails
(an `io::Error`) or returns the observable behaviour of the child. -/
def handle_executable (spawn : String → List String → Except IoError ChildRun)
    (path name : String) (args : List String) : Except RushError (Option Int) :=
  let intoRushErr : IoError → RushError := fun error =>
    .CommandError (.Executable path name) error.msg error.rawOsError
  match spawn name (args.drop 1) with
  | .error e => .error (intoRushErr e)
  | .ok child =>
    match child.wait with
    | .error e => .error (intoRushErr e)
    | .ok status =>
      match child.stdoutRelay with
      | .error e => .error (intoRushErr e)
      | .ok _ =>
        match child.stderrRelay with
        | .error e => .error (intoRushErr e)
        | .ok _ =>
          if status.success then .ok status.code
          else
            .error (.CommandError (.Executable path name)
              (match status.code with
               | some code => "process exited with code " ++ toString code
               | none => "process terminated by signal")
              status.code)

/-- Characters that may appear in a plain unquoted span: not the quote
character, not whitespace, and a single UTF-8 byte (so that char indices and
byte indices agree). -/
def PlainChar (c : Char) : Prop :=
  c ≠ quoteChar ∧ isRustWhitespace c = false ∧ charUtf8Size c = 1

instance (c : Char) : Decidable (PlainChar c) := by
  unfold PlainChar; infer_instance

/-- Does `need` occur as a contiguous substring of `hay`? -/
def strContains (hay need : String) : Bool :=
  (List.range (hay.toList.length + 1)).any fun i =>
    need.toList.isPrefixOf (hay.toList.drop i)

/-- Replace the resolved path stored in the `Executable` kind of a
`CommandError`; other errors are untouched.  Used to state that the `path`
argument of `handle_executable` influences only error payloads. -/
def setErrPath (p : String) : RushError → RushError
  | .CommandError (.Executable _ name) msg status =>
      .CommandError (.Executable p name) msg status
  | e => e

/-- A concrete environment with no `PATH` variable set. -/
def envNoPath : OsEnv where
  pathVar := none
  fileExists := fun _ => false
  metadata := fun _ => none

/-- A concrete environment where `ls` exists, executable, in two of the
three `PATH` directories. -/
def envBin : OsEnv where
  pathVar := some "/fake:/bin:/usr/bin"
  fileExists := fun p => p = "/bin/ls" || p = "/usr/bin/ls"
  metadata := fun p =>
    if p = "/bin/ls" || p = "/usr/bin/ls" then some { mode := 0o755 } else none

/-- A child that exits normally with code 0, with both relays succeeding. -/
def childExit0 : ChildRun where
  wait := .ok (.exited 0)
  stdoutRelay := .ok ()
  stderrRelay := .ok ()

/-- A child that exits normally with code 42, with both relays succeeding. -/
def childExit42 : ChildRun where
  wait := .ok (.exited 42)
  stdoutRelay := .ok ()
  stderrRelay := .ok ()

/-- A child killed by a signal, with both relays succeeding. -/
def childSig : ChildRun where
  wait := .ok .signaled
  stdoutRelay := .ok ()
  stderrRelay := .ok ()

/-- A spawn collaborator that always produces `childExit0`. -/
def spawnExit0 : String → List String → Except IoError ChildRun :=
  fun _ _ => .ok childExit0

/-- A spawn collaborator that always produces `childExit42`. -/
def spawnExit42 : String → List String → Except IoError ChildRun :=
  fun _ _ => .ok childExit42

/-- A spawn collaborator that always produces `childSig`. -/
def spawnSig : String → List String → Except IoError ChildRun :=
  fun _ _ => .ok childSig

/-- A spawn collaborator equal to `spawnExit0` at program `true` only. -/
def spawnExit0OnTrue : String → List String → Except IoError ChildRun :=
  fun program _ => if program = "true" then .ok childExit0 else .ok childSig

/-! ## Theorems -/

/-- C1: the claim states that every line with an odd total number of quote
characters fails with the Unterminated-quote error.  The code checks the
condition only when the last processed character falls in the catch-all
match arm and its char index equals the byte length minus one.  Hence a line
ending in a quote character (here: the four characters a, b, c, quote)
tokenizes successfully, as does a line containing a multi-byte character
(quote then e-acute: char index 1 never equals byte length 3 minus 1), while
the all-ASCII line quote, a, b, c does fail as the claim demands. -/
theorem tokenize_unterminated_check_missed :
    tokenize ['a', 'b', 'c', quoteChar] = .ok [['a', 'b', 'c']] ∧
    tokenize [quoteChar, 'é'] = .ok [['é']] ∧
    tokenize [quoteChar, 'a', 'b', 'c'] = .error .UnterminatedQuote :=
  ⟨rfl, rfl, rfl⟩

/-- C3: tokenizing the line quote-first-quote space quote-second-quote space
quote-third-quote yields exactly the single token firstsecondthird. -/
theorem tokenize_three_quoted_spans_concat :
    tokenize ([quoteChar] ++ "first".toList ++ [quoteChar, ' ', quoteChar] ++
        "second".toList ++ [quoteChar, ' ', quoteChar] ++ "third".toList ++ [quoteChar]) =
      .ok ["firstsecondthird".toList] := rfl

/-- C2 counterexample: the claim states that a space between two spans always
forces two separate tokens.  For the line quote-a-quote space quote-b-quote
the tokenizer returns the single token ab, so two quoted spans separated by a
space were merged. -/
theorem tokenize_space_between_quoted_concats :
    tokenize [quoteChar, 'a', quoteChar, ' ', quoteChar, 'b', quoteChar] =
      .ok [['a', 'b']] := rfl

/-- C4 counterexample: the claim states that every pair of adjacent spans
with no separating space merges into a single token.  In the line
quote-a-quote b space c, the quoted span a and the adjacent unquoted span b
stay separate: the result is the three tokens a, b, c rather than ab, c. -/
theorem tokenize_quoted_then_literal_splits :
    tokenize [quoteChar, 'a', quoteChar, 'b', ' ', 'c'] =
      .ok [['a'], ['b'], ['c']] := rfl

/-- C4 amended: adjacent spans with no separating space merge when the first
span is unquoted (pre-quote-fix-quote gives prefix), when both spans are
quoted (quote-a-quote-quote-b-quote gives ab), and when the second span is
unquoted and extends to the end of the line (quote-a-quote b gives ab); but a
quoted span followed adjacently by an unquoted span that is terminated by a
space or by a further quote stays a separate token (quote-a-quote b space c
gives a, b, c; quote-a-quote b quote-c-quote gives a, bc). -/
theorem tokenize_adjacent_span_merging :
    tokenize [quoteChar, 'a', quoteChar, quoteChar, 'b', quoteChar] =
        .ok [['a', 'b']] ∧
    tokenize ['p', 'r', 'e', quoteChar, 'f', 'i', 'x', quoteChar] =
        .ok ["prefix".toList] ∧
    tokenize [quoteChar, 'a', quoteChar, 'b'] = .ok [['a', 'b']] ∧
    tokenize [quoteChar, 'a', quoteChar, 'b', ' ', 'c'] =
        .ok [['a'], ['b'], ['c']] ∧
    tokenize [quoteChar, 'a', quoteChar, 'b', quoteChar, 'c', quoteChar] =
        .ok [['a'], ['b', 'c']] :=
  ⟨rfl, rfl, rfl, rfl, rfl⟩

/-- C10: echo invoked with no arguments after the command name prints
nothing at all — the handler returns success with an empty output list,
not a list containing an empty line. -/
theorem handle_echo_no_args_prints_nothing :
    handle_echo ["echo"] = .ok [] := rfl

/-- C5: mapping of a terminated child to the handler result — exit code 0
gives success carrying the code; nonzero exit code N gives a command error
with message process-exited-with-code-N and status N; signal death gives a
command error with message process-terminated-by-signal and absent status. -/
theorem handle_executable_exit_mapping
    (spawn : String → List String → Except IoError ChildRun)
    (path name : String) (args : List String) (child : ChildRun) (status : ExitStatus)
    (hspawn : spawn name (args.drop 1) = .ok child)
    (hwait : child.wait = .ok status)
    (hout : child.stdoutRelay = .ok ())
    (herr : child.stderrRelay = .ok ()) :
    (status = .exited 0 → handle_executable spawn path name args = .ok (some 0)) ∧
    (∀ n : Int, status = .exited n → n ≠ 0 →
      handle_executable spawn path name args =
        .error (.CommandError (.Executable path name)
          ("process exited with code " ++ toString n) (some n))) ∧
    (status = .signaled →
      handle_executable spawn path name args =
        .error (.CommandError (.Executable path name)
          "process terminated by signal" none)) := by
  have hrun : handle_executable spawn path name args =
      if status.success = true then .ok status.code
      else
        .error (.CommandError (.Executable path name)
          (match status.code with
           | some code => "process exited with code " ++ toString code
           | none => "process terminated by signal")
          status.code) := by
    unfold handle_executable
    simp only [hspawn, hwait, hout, herr]
  refine ⟨?_, ?_, ?_⟩
  · rintro rfl
    simp [hrun, ExitStatus.success, ExitStatus.code]
  · rintro n rfl hn
    simp [hrun, ExitStatus.success, ExitStatus.code, hn]
  · rintro rfl
    simp [hrun, ExitStatus.success, ExitStatus.code]

/-- Witness for C5 at three concrete runs: exit 0, exit 42, signal death. -/
theorem handle_executable_exit_mapping_witness :
    handle_executable spawnExit0 "/usr/bin/true" "true" ["true"] = .ok (some 0) ∧
    handle_executable spawnExit42 "/bin/sh" "sh" ["sh", "-c", "exit 42"] =
      .error (.CommandError (.Executable "/bin/sh" "sh")
        ("process exited with code " ++ toString (42 : Int)) (some 42)) ∧
    handle_executable spawnSig "/bin/sh" "sh" ["sh", "-c", "loop"] =
      .error (.CommandError (.Executable "/bin/sh" "sh")
        "process terminated by signal" none) :=
  ⟨(handle_executable_exit_mapping spawnExit0 "/usr/bin/true" "true" ["true"]
      childExit0 (.exited 0) rfl rfl rfl rfl).1 rfl,
   (handle_executable_exit_mapping spawnExit42 "/bin/sh" "sh" ["sh", "-c", "exit 42"]
      childExit42 (.exited 42) rfl rfl rfl rfl).2.1 42 rfl (by decide),
   (handle_executable_exit_mapping spawnSig "/bin/sh" "sh" ["sh", "-c", "loop"]
      childSig .signaled rfl rfl rfl rfl).2.2 rfl⟩

/-- C9: the child is spawned by the display name, not by the resolved path.
First, the handler result depends on the spawn collaborator only through its
value at the display name and the trailing arguments.  Second, changing the
path argument changes the result only by rewriting the path stored inside
error payloads, so the path never determines which binary runs. -/
theorem handle_executable_spawns_by_name
    (spawn spawn2 : String → List String → Except IoError ChildRun)
    (path path2 name : String) (args : List String) :
    (spawn name (args.drop 1) = spawn2 name (args.drop 1) →
      handle_executable spawn path name args = handle_executable spawn2 path name args) ∧
    handle_executable spawn path2 name args =
      Except.mapError (setErrPath path2) (handle_executable spawn path name args) := by
  constructor
  · intro h
    unfold handle_executable
    rw [h]
  · unfold handle_executable
    cases hs : spawn name (args.drop 1) with
    | error e => simp [hs, setErrPath, Except.mapError]
    | ok child =>
      cases hw : child.wait with
      | error e => simp [hs, hw, setErrPath, Except.mapError]
      | ok status =>
        cases ho : child.stdoutRelay with
        | error e => simp [hs, hw, ho, setErrPath, Except.mapError]
        | ok u =>
          cases he : child.stderrRelay with
          | error e => simp [hs, hw, ho, he, setErrPath, Except.mapError]
          | ok v =>
            by_cases hsucc : status.success = true
            · simp [hs, hw, ho, he, hsucc, Except.mapError]
            · simp [hs, hw, ho, he, hsucc, setErrPath, Except.mapError]

/-- Witness for C9: a spawn collaborator agreeing at program name true only,
and a changed path rewriting only the error payload. -/
theorem handle_executable_spawns_by_name_witness :
    handle_executable spawnExit0 "/usr/bin/true" "true" ["true"] =
      handle_executable spawnExit0OnTrue "/usr/bin/true" "true" ["true"] ∧
    handle_executable spawnExit0 "/renamed" "true" ["true"] =
      Except.mapError (setErrPath "/renamed")
        (handle_executable spawnExit0 "/usr/bin/true" "true" ["true"]) :=
  ⟨(handle_executable_spawns_by_name spawnExit0 spawnExit0OnTrue
      "/usr/bin/true" "/renamed" "true" ["true"]).1 rfl,
   (handle_executable_spawns_by_name spawnExit0 spawnExit0
      "/usr/bin/true" "/renamed" "true" ["true"]).2⟩

/-- C6: every successfully constructed Command has nonempty args and a kind
that is never Unknown; a line tokenizing to zero tokens yields the Nop error
rather than a Command. -/
theorem command_new_invariants (env : OsEnv) (line : String) :
    (∀ cmd, Command.new env line = .ok cmd →
      cmd.args ≠ [] ∧ cmd.type_.isUnknown = false) ∧
    (tokenizeInput line = .ok [] → Command.new env line = .error .Nop) := by
  constructor
  · intro cmd h
    unfold Command.new at h
    cases htok : tokenizeInput line with
    | error e =>
      rw [htok] at h
      exact Except.noConfusion h
    | ok args =>
      cases args with
      | nil =>
        rw [htok] at h
        exact Except.noConfusion h
      | cons name rest =>
        rw [htok] at h
        replace h : (match CommandType.fromStr name with
            | CommandType.Unknown cmd2 =>
              match find_in_path env cmd2 with
              | .error e => .error e
              | .ok (some path) =>
                  .ok { type_ := CommandType.Executable path cmd2, args := name :: rest }
              | .ok none => .error (RushError.CommandNotFound cmd2)
            | t => .ok { type_ := t, args := name :: rest }) = Except.ok cmd := h
        cases hty : CommandType.fromStr name
        case Unknown c =>
          simp only [hty] at h
          cases hf : find_in_path env c with
          | error e =>
            rw [hf] at h
            exact Except.noConfusion h
          | ok r =>
            cases r with
            | none =>
              rw [hf] at h
              exact Except.noConfusion h
            | some p =>
              simp only [hf] at h
              obtain rfl := Except.ok.inj h
              exact ⟨List.cons_ne_nil _ _, rfl⟩
        all_goals
          (simp only [hty] at h
           obtain rfl := Except.ok.inj h
           exact ⟨List.cons_ne_nil _ _, rfl⟩)
  · intro h
    unfold Command.new
    rw [h]
    rfl

/-- Witness for C6: a successfully classified echo command, and a
whitespace-only line yielding Nop. -/
theorem command_new_invariants_witness :
    ((Command.mk .Echo ["echo", "hi"]).args ≠ [] ∧
      (Command.mk .Echo ["echo", "hi"]).type_.isUnknown = false) ∧
    Command.new envNoPath "   " = .error .Nop :=
  ⟨(command_new_invariants envNoPath "echo hi").1 (Command.mk .Echo ["echo", "hi"]) rfl,
   (command_new_invariants envNoPath "   ").2 rfl⟩

/-- The directory scan of find_in_path is the first match, in list order, of
the joined candidate paths. -/
theorem findDir_eq_find (env : OsEnv) (cmdName : String) (dirs : List String) :
    findDir env cmdName dirs =
      ((dirs.map fun dir => pathJoin dir cmdName).find?
        fun fp => env.fileExists fp && is_executable env fp) := by
  induction dirs with
  | nil => rfl
  | cons d ds ih =>
    simp only [findDir, List.map_cons, List.find?_cons]
    cases h : env.fileExists (pathJoin d cmdName) && is_executable env (pathJoin d cmdName) with
    | true => simp [h]
    | false => simpa [h] using ih

/-- C7: find_in_path scans the PATH directories in listed order and returns
the joined path for the first directory whose candidate exists and is
executable; an absent PATH variable gives no result (not an error), and so
does an exhausted scan (find? returns none). -/
theorem find_in_path_first_match (env : OsEnv) (cmdName : String) :
    (env.pathVar = none → find_in_path env cmdName = .ok none) ∧
    (∀ pathEnv, env.pathVar = some pathEnv →
      find_in_path env cmdName =
        .ok (((splitPaths pathEnv).map fun dir => pathJoin dir cmdName).find?
          fun fp => env.fileExists fp && is_executable env fp)) := by
  constructor
  · intro h
    unfold find_in_path
    simp only [h]
  · intro pathEnv h
    unfold find_in_path
    simp only [h, findDir_eq_find]

/-- Witness for C7: the no-PATH environment resolves nothing, and in a
concrete environment the scan result equals the first-match specification
(concretely, the second directory wins). -/
theorem find_in_path_first_match_witness :
    find_in_path envNoPath "ls" = .ok none ∧
    find_in_path envBin "ls" =
      .ok (((splitPaths "/fake:/bin:/usr/bin").map fun dir => pathJoin dir "ls").find?
        fun fp => envBin.fileExists fp && is_executable envBin fp) ∧
    find_in_path envBin "ls" = .ok (some "/bin/ls") :=
  ⟨(find_in_path_first_match envNoPath "ls").1 rfl,
   (find_in_path_first_match envBin "ls").2 "/fake:/bin:/usr/bin" rfl,
   rfl⟩

/-- A list is a Boolean prefix of itself followed by anything. -/
theorem isPrefixOf_self_append (xs ys : List Char) : xs.isPrefixOf (xs ++ ys) = true := by
  induction xs with
  | nil => simp [List.isPrefixOf]
  | cons c cs ih => simp [List.isPrefixOf, ih]

/-- Any decomposition of the character list of `hay` around the character
list of `need` shows containment. -/
theorem strContains_of_parts (hay need : String) (pre post : List Char)
    (h : hay.toList = pre ++ (need.toList ++ post)) : strContains hay need = true := by
  unfold strContains
  rw [List.any_eq_true]
  refine ⟨pre.length, ?_, ?_⟩
  · rw [List.mem_range]
    have hlen := congrArg List.length h
    simp only [List.length_append] at hlen
    omega
  · rw [h, List.drop_left]
    exact isPrefixOf_self_append _ _

/-- Character lists of appended strings append. -/
theorem strToList_append (a b : String) : (a ++ b).toList = a.toList ++ b.toList := by
  cases a with
  | mk da => cases b with
    | mk db => rfl

/-- C8: handle_type fails with the missing-argument command error when no
argument follows the command name; reports a shell builtin when the first
argument is one of the five builtin names; reports the resolved path when
the argument is not a builtin and resolves on the search path; otherwise
fails with a command error whose rendered message contains both the argument
and the text not-found; and arguments beyond the first never affect the
result. -/
theorem handle_type_behavior (env : OsEnv) (args : List String) :
    (args.get? 1 = none →
      handle_type env args = .error (.CommandError .Type "missing argument" (some 1))) ∧
    (∀ name, args.get? 1 = some name →
      name ∈ ["cd", "exit", "echo", "pwd", "type"] →
      handle_type env args = .ok [name ++ " is a shell builtin"]) ∧
    (∀ name p, args.get? 1 = some name → is_builtin name = false →
      find_in_path env name = .ok (some p) →
      handle_type env args = .ok [name ++ " is " ++ p]) ∧
    (∀ name, args.get? 1 = some name → is_builtin name = false →
      find_in_path env name = .ok none →
      handle_type env args = .error (.CommandError (.Unknown name) "not found" (some 1)) ∧
      strContains (RushError.render (.CommandError (.Unknown name) "not found" (some 1)))
        name = true ∧
      strContains (RushError.render (.CommandError (.Unknown name) "not found" (some 1)))
        "not found" = true) ∧
    (∀ a0 a1 rest1 rest2,
      handle_type env (a0 :: a1 :: rest1) = handle_type env (a0 :: a1 :: rest2)) := by
  refine ⟨?_, ?_, ?_, ?_, ?_⟩
  · intro hget
    unfold handle_type
    rw [hget]
  · intro name hget hmem
    have hb : is_builtin name = true := by
      simp only [List.mem_cons, List.not_mem_nil, or_false] at hmem
      rcases hmem with rfl | rfl | rfl | rfl | rfl <;> rfl
    unfold handle_type
    rw [hget]
    simp only [hb, if_true]
  · intro name p hget hb hfind
    unfold handle_type
    rw [hget]
    simp only [hb, Bool.false_eq_true, if_false, hfind]
  · intro name hget hb hfind
    refine ⟨?_, ?_, ?_⟩
    · unfold handle_type
      rw [hget]
      simp only [hb, Bool.false_eq_true, if_false, hfind]
    · refine strContains_of_parts _ _ [] (": not found".toList) ?_
      simp only [RushError.render, CommandType.display, List.nil_append]
      rw [strToList_append, strToList_append, List.append_assoc]
      rw [show ((": ".toList ++ "not found".toList : List Char) = ": not found".toList) from rfl]
    · refine strContains_of_parts _ _ (name.toList ++ ": ".toList) [] ?_
      simp only [RushError.render, CommandType.display]
      rw [strToList_append, strToList_append, List.append_nil]
  · intro a0 a1 rest1 rest2
    rfl

/-- Witness for C8: each behaviour at a concrete invocation — missing
argument, the builtin echo, a resolvable name, an unresolvable name, and an
ignored extra argument. -/
theorem handle_type_behavior_witness :
    handle_type envNoPath ["type"] =
      .error (.CommandError .Type "missing argument" (some 1)) ∧
    handle_type envNoPath ["type", "echo"] = .ok ["echo" ++ " is a shell builtin"] ∧
    handle_type envBin ["type", "ls"] = .ok ["ls" ++ " is " ++ "/bin/ls"] ∧
    (handle_type envNoPath ["type", "zzz"] =
        .error (.CommandError (.Unknown "zzz") "not found" (some 1)) ∧
      strContains (RushError.render (.CommandError (.Unknown "zzz") "not found" (some 1)))
        "zzz" = true ∧
      strContains (RushError.render (.CommandError (.Unknown "zzz") "not found" (some 1)))
        "not found" = true) ∧
    handle_type envNoPath ["type", "echo", "exit"] = handle_type envNoPath ["type", "echo"] :=
  ⟨(handle_type_behavior envNoPath ["type"]).1 rfl,
   (handle_type_behavior envNoPath ["type", "echo"]).2.1 "echo" rfl (by simp),
   (handle_type_behavior envBin ["type", "ls"]).2.2.1 "ls" "/bin/ls" rfl rfl rfl,
   (handle_type_behavior envNoPath ["type", "zzz"]).2.2.2.1 "zzz" rfl rfl rfl,
   (handle_type_behavior envNoPath ["type", "echo"]).2.2.2.2 "type" "echo" ["exit"] []⟩

/-- A plain character is not the space character. -/
theorem plainChar_ne_space {c : Char} (h : PlainChar c) : c ≠ ' ' := by
  intro e
  subst e
  exact absurd h.2.1 (by decide)

/-- Trimming removes nothing from a list without whitespace characters. -/
theorem rustTrim_of_no_ws {cs : List Char} (h : ∀ c ∈ cs, isRustWhitespace c = false) :
    rustTrim cs = cs := by
  have h1 : cs.dropWhile isRustWhitespace = cs := by
    cases cs with
    | nil => rfl
    | cons c cs2 => simp [List.dropWhile_cons, h c (by simp)]
  have h2 : cs.reverse.dropWhile isRustWhitespace = cs.reverse := by
    cases hr : cs.reverse with
    | nil => rfl
    | cons c cs2 =>
      have hc : c ∈ cs := by
        have hm : c ∈ cs.reverse := by rw [hr]; simp
        simpa using hm
      simp [List.dropWhile_cons, h c hc]
  unfold rustTrim
  rw [h1, h2, List.reverse_reverse]

theorem utf8Len_nil : utf8Len [] = 0 := rfl

theorem utf8Len_cons (c : Char) (cs : List Char) :
    utf8Len (c :: cs) = charUtf8Size c + utf8Len cs := by
  simp [utf8Len]

theorem utf8Len_append (xs ys : List Char) :
    utf8Len (xs ++ ys) = utf8Len xs + utf8Len ys := by
  simp [utf8Len]

/-- Byte length equals character count on single-byte content. -/
theorem utf8Len_of_single {cs : List Char} (h : ∀ c ∈ cs, charUtf8Size c = 1) :
    utf8Len cs = cs.length := by
  induction cs with
  | nil => rfl
  | cons c cs2 ih =>
    rw [utf8Len_cons, h c (by simp), ih (fun d hd => h d (by simp [hd]))]
    simp [Nat.add_comm]

theorem tokLoop_nil (L : Nat) (st : TokState) (i : Nat) : tokLoop L st i [] = .ok st := rfl

theorem tokLoop_cons (L : Nat) (st : TokState) (i : Nat) (c : Char) (cs : List Char) :
    tokLoop L st i (c :: cs) =
      match tokStep L st i c with
      | .error e => .error e
      | .ok st2 => tokLoop L st2 (i + 1) cs := rfl

/-- The loop over an appended list runs the two pieces in sequence. -/
theorem tokLoop_append (L : Nat) (xs ys : List Char) (st : TokState) (i : Nat) :
    tokLoop L st i (xs ++ ys) =
      match tokLoop L st i xs with
      | .error e => .error e
      | .ok st2 => tokLoop L st2 (i + xs.length) ys := by
  induction xs generalizing st i with
  | nil => simp [tokLoop_nil]
  | cons c cs ih =>
    rw [List.cons_append, tokLoop_cons, tokLoop_cons]
    cases tokStep L st i c with
    | error e => rfl
    | ok st2 =>
      simp only []
      rw [ih]
      have harith : i + 1 + cs.length = i + (cs.length + 1) := by omega
      simp only [List.length_cons, harith]

/-- A plain character always lands in the catch-all arm and is pushed into
the buffer, provided the unterminated-quote check does not fire. -/
theorem tokStep_plain (L : Nat) (st : TokState) (i : Nat) (c : Char)
    (hc : PlainChar c) (hi : st.quoteCount % 2 = 1 → i ≠ L - 1) :
    tokStep L st i c = .ok { st with buf := st.buf ++ [c] } := by
  have hsp : c ≠ ' ' := plainChar_ne_space hc
  have hcond : ¬(i = L - 1 ∧ st.quoteCount % 2 = 1) := by
    rintro ⟨h1, h2⟩
    exact hi h2 h1
  unfold tokStep
  rw [if_neg hc.1, if_neg hsp, if_neg hcond]

/-- Running the loop over a run of plain characters just extends the buffer,
as long as the run ends strictly before the last byte whenever the quote
count is odd. -/
theorem tokLoop_plain_run (L : Nat) (cs buf : List Char) (qc : Nat)
    (hsl : Bool) (toks : List TokenKind) (i : Nat)
    (hp : ∀ c ∈ cs, PlainChar c)
    (hlen : qc % 2 = 1 → i + cs.length < L) :
    tokLoop L ⟨buf, qc, hsl, toks⟩ i cs = .ok ⟨buf ++ cs, qc, hsl, toks⟩ := by
  induction cs generalizing buf i with
  | nil => simp [tokLoop_nil]
  | cons c cs2 ih =>
    rw [tokLoop_cons, tokStep_plain L _ i c (hp c (by simp))
      (by intro hodd hiL; have := hlen hodd; simp only [List.length_cons] at this; omega)]
    show tokLoop L ⟨buf ++ [c], qc, hsl, toks⟩ (i + 1) cs2 = .ok ⟨buf ++ c :: cs2, qc, hsl, toks⟩
    rw [ih (buf ++ [c]) (i + 1) (fun d hd => hp d (by simp [hd]))
      (by intro hodd; have := hlen hodd; simp only [List.length_cons] at this; omega)]
    simp

/-- A space seen right after a Space separator leaves the state unchanged. -/
theorem tokStep_space_after_sep (L : Nat) (hsl : Bool) (toks : List TokenKind) (i : Nat) :
    tokStep L ⟨[], 0, hsl, .Space :: toks⟩ i ' ' = .ok ⟨[], 0, hsl, .Space :: toks⟩ := rfl

/-- A space seen after a Quoted token, before any literal, leaves the state
unchanged — this is the concatenation window. -/
theorem tokStep_space_after_quoted (L : Nat) (q : List Char) (toks : List TokenKind) (i : Nat) :
    tokStep L ⟨[], 0, false, .Quoted q :: toks⟩ i ' ' =
      .ok ⟨[], 0, false, .Quoted q :: toks⟩ := rfl

/-- A run of spaces after a Space separator leaves the state unchanged. -/
theorem tokLoop_spaces_after_sep (L n : Nat) (hsl : Bool) (toks : List TokenKind) (i : Nat) :
    tokLoop L ⟨[], 0, hsl, .Space :: toks⟩ i (List.replicate n ' ') =
      .ok ⟨[], 0, hsl, .Space :: toks⟩ := by
  induction n generalizing i with
  | zero => rfl
  | succ n ih =>
    rw [List.replicate_succ, tokLoop_cons, tokStep_space_after_sep]
    exact ih (i + 1)

/-- A run of spaces after a Quoted token, before any literal, leaves the
state unchanged. -/
theorem tokLoop_spaces_after_quoted (L n : Nat) (q : List Char) (toks : List TokenKind)
    (i : Nat) :
    tokLoop L ⟨[], 0, false, .Quoted q :: toks⟩ i (List.replicate n ' ') =
      .ok ⟨[], 0, false, .Quoted q :: toks⟩ := by
  induction n generalizing i with
  | zero => rfl
  | succ n ih =>
    rw [List.replicate_succ, tokLoop_cons, tokStep_space_after_quoted]
    exact ih (i + 1)

/-- A space at depth zero with pending buffer content flushes a Literal
token followed by a Space separator and records that a literal was seen. -/
theorem tokStep_space_flush (L : Nat) (a : List Char) (hsl : Bool) (toks : List TokenKind)
    (i : Nat) (ha : a ≠ []) (hnw : ∀ c ∈ a, isRustWhitespace c = false) :
    tokStep L ⟨a, 0, hsl, toks⟩ i ' ' =
      .ok ⟨[], 0, true, .Space :: .Literal a :: toks⟩ := by
  have htrim : rustTrim a = a := rustTrim_of_no_ws hnw
  have hq : (' ' : Char) ≠ quoteChar := by decide
  unfold tokStep
  rw [if_neg hq, if_pos rfl, if_pos rfl, htrim]
  rw [if_neg (by simpa [List.isEmpty_iff] using ha)]

/-- An opening quote from an empty buffer just raises the quote count. -/
theorem tokStep_quote_open_empty (L : Nat) (hsl : Bool) (toks : List TokenKind) (i : Nat) :
    tokStep L ⟨[], 0, hsl, toks⟩ i quoteChar = .ok ⟨[], 1, hsl, toks⟩ := rfl

/-- A closing quote with nonempty content and an empty token list pushes a
fresh Quoted token. -/
theorem tokStep_quote_close_fresh (L : Nat) (a : List Char) (hsl : Bool) (i : Nat)
    (ha : a ≠ []) (hnw : ∀ c ∈ a, isRustWhitespace c = false) :
    tokStep L ⟨a, 1, hsl, []⟩ i quoteChar = .ok ⟨[], 0, hsl, [.Quoted a]⟩ := by
  have htrim : rustTrim a = a := rustTrim_of_no_ws hnw
  unfold tokStep
  rw [if_pos rfl]
  simp only [htrim]
  rw [if_neg (by decide), if_pos (by decide), if_neg (by simpa [List.length_eq_zero] using ha)]

/-- A closing quote with nonempty content merges into a preceding Quoted
token — no Space separates them. -/
theorem tokStep_quote_close_merge (L : Nat) (b t : List Char) (hsl : Bool)
    (toks : List TokenKind) (i : Nat) (hb : b ≠ [])
    (hnw : ∀ c ∈ b, isRustWhitespace c = false) :
    tokStep L ⟨b, 1, hsl, .Quoted t :: toks⟩ i quoteChar =
      .ok ⟨[], 0, hsl, .Quoted (t ++ b) :: toks⟩ := by
  have htrim : rustTrim b = b := rustTrim_of_no_ws hnw
  unfold tokStep
  rw [if_pos rfl]
  simp only [htrim]
  rw [if_neg (by decide), if_pos (by decide), if_neg (by simpa [List.length_eq_zero] using hb)]

/-- C2 amended: a space between spans forces a token boundary when the spans
are plain unquoted spans — for all nonempty runs a, b of plain characters
and any positive number of separating spaces, tokenization yields the two
tokens a then b.  But between two quoted spans with no unquoted span before
them the spaces do not force a boundary: the quoted spans concatenate into
the single token a ++ b. -/
theorem tokenize_space_boundary_amended (a b : List Char) (n : Nat)
    (ha : a ≠ []) (hb : b ≠ [])
    (hpa : ∀ c ∈ a, PlainChar c) (hpb : ∀ c ∈ b, PlainChar c) :
    tokenize (a ++ (List.replicate (n + 1) ' ' ++ b)) = .ok [a, b] ∧
    tokenize (quoteChar :: (a ++ (quoteChar :: (List.replicate (n + 1) ' ' ++
      (quoteChar :: (b ++ [quoteChar])))))) = .ok [a ++ b] := by
  have hnwa : ∀ c ∈ a, isRustWhitespace c = false := fun c hc => (hpa c hc).2.1
  have hnwb : ∀ c ∈ b, isRustWhitespace c = false := fun c hc => (hpb c hc).2.1
  have htb : rustTrim b = b := rustTrim_of_no_ws hnwb
  have hal : 0 < a.length := List.length_pos.mpr ha
  have hbl : 0 < b.length := List.length_pos.mpr hb
  constructor
  · unfold tokenize
    set L := utf8Len (a ++ (List.replicate (n + 1) ' ' ++ b)) with hLdef
    have hloop : tokLoop L ⟨[], 0, false, []⟩ 0 (a ++ (List.replicate (n + 1) ' ' ++ b)) =
        .ok ⟨b, 0, true, [.Space, .Literal a]⟩ := by
      rw [tokLoop_append, tokLoop_plain_run L a [] 0 false [] 0 hpa (by simp)]
      simp only [List.nil_append, Nat.zero_add]
      rw [List.replicate_succ, List.cons_append, tokLoop_cons,
        tokStep_space_flush L a false [] a.length ha hnwa]
      show tokLoop L ⟨[], 0, true, [.Space, .Literal a]⟩ (a.length + 1)
          (List.replicate n ' ' ++ b) = _
      rw [tokLoop_append, tokLoop_spaces_after_sep]
      show tokLoop L ⟨[], 0, true, [.Space, .Literal a]⟩
          (a.length + 1 + (List.replicate n ' ').length) b = _
      rw [tokLoop_plain_run L b [] 0 true [.Space, .Literal a] _ hpb (by simp)]
      simp
    rw [hloop]
    simp [Except.map, tokFinish, collectTokens, htb, hbl]
  · unfold tokenize
    set L := utf8Len (quoteChar :: (a ++ (quoteChar :: (List.replicate (n + 1) ' ' ++
      (quoteChar :: (b ++ [quoteChar])))))) with hLdef
    have hsa : utf8Len a = a.length := utf8Len_of_single (fun c hc => (hpa c hc).2.2)
    have hsb : utf8Len b = b.length := utf8Len_of_single (fun c hc => (hpb c hc).2.2)
    have hsp : utf8Len (List.replicate (n + 1) ' ') = n + 1 := by
      rw [utf8Len_of_single (fun c hc => by rw [List.eq_of_mem_replicate hc]; rfl)]
      simp
    have hq1 : charUtf8Size quoteChar = 1 := rfl
    have hL : L = a.length + b.length + n + 5 := by
      rw [hLdef]
      simp only [utf8Len_cons, utf8Len_append, utf8Len_nil, hsa, hsb, hsp, hq1]
      omega
    have g7 : ∀ i, tokLoop L ⟨b, 1, false, [.Quoted a]⟩ i [quoteChar] =
        .ok ⟨[], 0, false, [.Quoted (a ++ b)]⟩ := by
      intro i
      rw [tokLoop_cons, tokStep_quote_close_merge L b a false [] i hb hnwb]
      rfl
    have g6 : ∀ i, i + b.length < L →
        tokLoop L ⟨[], 1, false, [.Quoted a]⟩ i (b ++ [quoteChar]) =
          .ok ⟨[], 0, false, [.Quoted (a ++ b)]⟩ := by
      intro i hi
      rw [tokLoop_append, tokLoop_plain_run L b [] 1 false [.Quoted a] i hpb (fun _ => hi)]
      exact g7 (i + b.length)
    have g5 : ∀ i, i + 1 + b.length < L →
        tokLoop L ⟨[], 0, false, [.Quoted a]⟩ i (quoteChar :: (b ++ [quoteChar])) =
          .ok ⟨[], 0, false, [.Quoted (a ++ b)]⟩ := by
      intro i hi
      rw [tokLoop_cons, tokStep_quote_open_empty]
      exact g6 (i + 1) (by omega)
    have g3 : ∀ i, i + 1 + n + 1 + b.length < L →
        tokLoop L ⟨[], 0, false, [.Quoted a]⟩ i
          (' ' :: (List.replicate n ' ' ++ (quoteChar :: (b ++ [quoteChar])))) =
          .ok ⟨[], 0, false, [.Quoted (a ++ b)]⟩ := by
      intro i hi
      rw [tokLoop_cons, tokStep_space_after_quoted]
      show tokLoop L ⟨[], 0, false, [.Quoted a]⟩ (i + 1)
          (List.replicate n ' ' ++ (quoteChar :: (b ++ [quoteChar]))) = _
      rw [tokLoop_append, tokLoop_spaces_after_quoted]
      exact g5 (i + 1 + (List.replicate n ' ').length)
        (by simp only [List.length_replicate]; omega)
    have g3r : ∀ i, i + 1 + n + 1 + b.length < L →
        tokLoop L ⟨[], 0, false, [.Quoted a]⟩ i
          (List.replicate (n + 1) ' ' ++ (quoteChar :: (b ++ [quoteChar]))) =
          .ok ⟨[], 0, false, [.Quoted (a ++ b)]⟩ := by
      intro i hi
      rw [List.replicate_succ, List.cons_append]
      exact g3 i hi
    have g2 : ∀ i, i + 3 + n + b.length < L →
        tokLoop L ⟨a, 1, false, []⟩ i
          (quoteChar :: (List.replicate (n + 1) ' ' ++ (quoteChar :: (b ++ [quoteChar])))) =
          .ok ⟨[], 0, false, [.Quoted (a ++ b)]⟩ := by
      intro i hi
      rw [tokLoop_cons, tokStep_quote_close_fresh L a false i ha hnwa]
      exact g3r (i + 1) (by omega)
    have g1 : ∀ i, i + a.length < L → i + a.length + 3 + n + b.length < L →
        tokLoop L ⟨[], 1, false, []⟩ i
          (a ++ (quoteChar :: (List.replicate (n + 1) ' ' ++
            (quoteChar :: (b ++ [quoteChar]))))) =
          .ok ⟨[], 0, false, [.Quoted (a ++ b)]⟩ := by
      intro i hi1 hi2
      rw [tokLoop_append, tokLoop_plain_run L a [] 1 false [] i hpa (fun _ => hi1)]
      exact g2 (i + a.length) (by omega)
    have g0 : tokLoop L ⟨[], 0, false, []⟩ 0
        (quoteChar :: (a ++ (quoteChar :: (List.replicate (n + 1) ' ' ++
          (quoteChar :: (b ++ [quoteChar])))))) =
        .ok ⟨[], 0, false, [.Quoted (a ++ b)]⟩ := by
      rw [tokLoop_cons, tokStep_quote_open_empty]
      exact g1 1 (by omega) (by omega)
    rw [g0]
    simp [Except.map, tokFinish, collectTokens]

/-- Witness for the amended C2 at a concrete pair of one-letter spans with
one separating space: x y gives two tokens while quote-x-quote quote-y-quote
gives the one token xy. -/
theorem tokenize_space_boundary_amended_witness :
    tokenize (['x'] ++ (List.replicate (0 + 1) ' ' ++ ['y'])) = .ok [['x'], ['y']] ∧
    tokenize (quoteChar :: (['x'] ++ (quoteChar :: (List.replicate (0 + 1) ' ' ++
      (quoteChar :: (['y'] ++ [quoteChar])))))) = .ok [['x'] ++ ['y']] :=
  tokenize_space_boundary_amended ['x'] ['y'] 0 (by decide) (by decide)
    (by decide) (by decide)

end Rush
